import Mathlib

/-!
Verification of the printbuf library (`include/linux/printbuf.h`).

The development shallowly embeds the printbuf data structure and the operations
defined inline in the header.  Byte storage is modelled as a total function
`Nat → Option Nat` (`none` = uninitialized memory, `some b` = a stored byte),
so that statements about which cells an operation touches are meaningful.
Machine `unsigned` values are modelled as `Nat`; all subtractions in the source
are guarded so `Nat` truncated subtraction coincides with the C arithmetic, and
the `u8` counters that do wrap (`atomic`) carry an explicit `% 256`.
-/

set_option maxHeartbeats 1000000

/-- `enum printbuf_si` from the header. -/
inductive printbuf_si where
  | PRINTBUF_UNITS_2
  | PRINTBUF_UNITS_10
  deriving DecidableEq, Repr

/-- `struct printbuf` from the header.  `buf` is the byte storage, viewed as a
total map from indices to optionally-initialized bytes; the remaining fields
mirror the C struct field for field (`_tabstops` is called `tabstops`). -/
structure Printbuf where
  buf : Nat → Option Nat
  size : Nat
  pos : Nat
  last_newline : Nat
  last_field : Nat
  indent : Nat
  atomic : Nat
  allocation_failure : Bool
  heap_allocated : Bool
  si_units : printbuf_si
  human_readable_units : Bool
  has_indent_or_tabstops : Bool
  suppress_indent_tabstop_handling : Bool
  nr_tabstops : Nat
  cur_tabstop : Nat
  tabstops : List Nat

/-- The `PRINTBUF` initializer: a zero struct with `heap_allocated = true`. -/
def PRINTBUF : Printbuf where
  buf := fun _ => none
  size := 0
  pos := 0
  last_newline := 0
  last_field := 0
  indent := 0
  atomic := 0
  allocation_failure := false
  heap_allocated := true
  si_units := printbuf_si.PRINTBUF_UNITS_2
  human_readable_units := false
  has_indent_or_tabstops := false
  suppress_indent_tabstop_handling := false
  nr_tabstops := 0
  cur_tabstop := 0
  tabstops := List.replicate 4 0

/-- The `PRINTBUF_EXTERN(_buf, _size)` initializer: a zero struct pointing at
caller-supplied storage. -/
def PRINTBUF_EXTERN (b : Nat → Option Nat) (sz : Nat) : Printbuf where
  buf := b
  size := sz
  pos := 0
  last_newline := 0
  last_field := 0
  indent := 0
  atomic := 0
  allocation_failure := false
  heap_allocated := false
  si_units := printbuf_si.PRINTBUF_UNITS_2
  human_readable_units := false
  has_indent_or_tabstops := false
  suppress_indent_tabstop_handling := false
  nr_tabstops := 0
  cur_tabstop := 0
  tabstops := List.replicate 4 0

/-- `printbuf_remaining_size`: `out->pos < out->size ? out->size - out->pos : 0`. -/
def printbuf_remaining_size (out : Printbuf) : Nat :=
  if out.pos < out.size then out.size - out.pos else 0

/-- `printbuf_remaining`: `out->pos < out->size ? out->size - out->pos - 1 : 0`. -/
def printbuf_remaining (out : Printbuf) : Nat :=
  if out.pos < out.size then out.size - out.pos - 1 else 0

/-- `printbuf_written`: `out->size ? min(out->pos, out->size - 1) : 0`. -/
def printbuf_written (out : Printbuf) : Nat :=
  if out.size ≠ 0 then min out.pos (out.size - 1) else 0

/-- `printbuf_overflowed`: `out->pos >= out->size`. -/
def printbuf_overflowed (out : Printbuf) : Bool :=
  decide (out.size ≤ out.pos)

/-- A single store `buf[i] = v` into the byte storage. -/
def bufSet (f : Nat → Option Nat) (i v : Nat) : Nat → Option Nat :=
  fun j => if j = i then some v else f j

/-- Modelled from the spec: the body of `printbuf_make_room` is not under
`src` (the header only declares it).  Per the spec (section 4.1): external-mode
buffers never grow (`ensure_room` is a no-op); heap-mode buffers, whenever
`cursor + n + 1 > capacity`, grow by doubling up to the next sufficient power of
two, with an ideal (always succeeding) allocator.  Reallocation preserves the
first `size` bytes and leaves the freshly allocated region uninitialized. -/
def printbuf_make_room (out : Printbuf) (extra : Nat) : Printbuf :=
  if out.heap_allocated = false then out
  else if out.pos + extra + 1 ≤ out.size then out
  else
    let new_size := 2 ^ Nat.clog 2 (out.pos + extra + 1)
    { out with
      size := new_size,
      buf := fun i =>
        if i < out.size then out.buf i
        else if i < new_size then none
        else out.buf i }

/-- `printbuf_nul_terminate`: `printbuf_make_room(out, 1)`, then store a nul at
`pos` if it is in bounds, else at `size - 1` if `size` is nonzero. -/
def printbuf_nul_terminate (out : Printbuf) : Printbuf :=
  let out1 := printbuf_make_room out 1
  if out1.pos < out1.size then { out1 with buf := bufSet out1.buf out1.pos 0 }
  else if out1.size ≠ 0 then { out1 with buf := bufSet out1.buf (out1.size - 1) 0 }
  else out1

/-- `__prt_char_reserved`: store `c` at `pos` if `printbuf_remaining` is
nonzero, then unconditionally advance `pos`. -/
def __prt_char_reserved (out : Printbuf) (c : Nat) : Printbuf :=
  let out1 :=
    if printbuf_remaining out ≠ 0 then { out with buf := bufSet out.buf out.pos c } else out
  { out1 with pos := out1.pos + 1 }

/-- `__prt_char`: `printbuf_make_room(out, 1)` then `__prt_char_reserved`. -/
def __prt_char (out : Printbuf) (c : Nat) : Printbuf :=
  __prt_char_reserved (printbuf_make_room out 1) c

/-- `prt_char`: `__prt_char` then `printbuf_nul_terminate`. -/
def prt_char (out : Printbuf) (c : Nat) : Printbuf :=
  printbuf_nul_terminate (__prt_char out c)

/-- The store loop `for (i = 0; i < can_print; i++) out->buf[out->pos++] = …`,
with the bytes to store listed in order. -/
def prt_bytes_loop (buf : Nat → Option Nat) (p : Nat) (bs : List Nat) : Nat → Option Nat :=
  match bs with
  | [] => buf
  | b :: rest => prt_bytes_loop (bufSet buf p b) (p + 1) rest

/-- `__prt_chars_reserved`: store `c` into the next
`can_print = min(n, printbuf_remaining(out))` cells, then advance `pos` by the
full `n` (`pos += can_print` inside the loop, then `pos += n - can_print`). -/
def __prt_chars_reserved (out : Printbuf) (c n : Nat) : Printbuf :=
  let can_print := min n (printbuf_remaining out)
  { out with
    buf := prt_bytes_loop out.buf out.pos (List.replicate can_print c),
    pos := out.pos + can_print + (n - can_print) }

/-- `prt_chars`: `printbuf_make_room(out, n)`, `__prt_chars_reserved`, then
`printbuf_nul_terminate`. -/
def prt_chars (out : Printbuf) (c n : Nat) : Printbuf :=
  printbuf_nul_terminate (__prt_chars_reserved (printbuf_make_room out n) c n)

/-- The body of `prt_bytes` between `printbuf_make_room` and
`printbuf_nul_terminate`: copy `can_print = min(n, printbuf_remaining(out))`
bytes of `b` into the buffer and advance `pos` by the full `n`. -/
def prt_bytes_body (out : Printbuf) (b : List Nat) (n : Nat) : Printbuf :=
  let can_print := min n (printbuf_remaining out)
  { out with
    buf := prt_bytes_loop out.buf out.pos (b.take can_print),
    pos := out.pos + can_print + (n - can_print) }

/-- `prt_bytes`: `printbuf_make_room(out, n)`, copy loop, then
`printbuf_nul_terminate`. -/
def prt_bytes (out : Printbuf) (b : List Nat) (n : Nat) : Printbuf :=
  printbuf_nul_terminate (prt_bytes_body (printbuf_make_room out n) b n)

/-- `prt_str`: `prt_bytes(out, str, strlen(str))`. -/
def prt_str (out : Printbuf) (s : List Nat) : Printbuf :=
  prt_bytes out s s.length

/-- The lower-case hex digit table `hex_asc` = "0123456789abcdef" (byte codes). -/
def hex_asc : List Nat := [48, 49, 50, 51, 52, 53, 54, 55, 56, 57, 97, 98, 99, 100, 101, 102]

/-- The upper-case hex digit table `hex_asc_upper` = "0123456789ABCDEF". -/
def hex_asc_upper : List Nat := [48, 49, 50, 51, 52, 53, 54, 55, 56, 57, 65, 66, 67, 68, 69, 70]

/-- `hex_asc_lo(x)`: digit for the low nibble. -/
def hex_asc_lo (x : Nat) : Nat := hex_asc.getD (x % 16) 0

/-- `hex_asc_hi(x)`: digit for the high nibble. -/
def hex_asc_hi (x : Nat) : Nat := hex_asc.getD (x / 16 % 16) 0

/-- `hex_asc_upper_lo(x)`. -/
def hex_asc_upper_lo (x : Nat) : Nat := hex_asc_upper.getD (x % 16) 0

/-- `hex_asc_upper_hi(x)`. -/
def hex_asc_upper_hi (x : Nat) : Nat := hex_asc_upper.getD (x / 16 % 16) 0

/-- `prt_hex_byte`: room for 2, two reserved char writes (high then low
nibble), then nul-terminate. -/
def prt_hex_byte (out : Printbuf) (byte : Nat) : Printbuf :=
  printbuf_nul_terminate
    (__prt_char_reserved
      (__prt_char_reserved (printbuf_make_room out 2) (hex_asc_hi byte))
      (hex_asc_lo byte))

/-- `prt_hex_byte_upper`: as `prt_hex_byte` with the upper-case table. -/
def prt_hex_byte_upper (out : Printbuf) (byte : Nat) : Printbuf :=
  printbuf_nul_terminate
    (__prt_char_reserved
      (__prt_char_reserved (printbuf_make_room out 2) (hex_asc_upper_hi byte))
      (hex_asc_upper_lo byte))

/-- `printbuf_reset`: zero `pos`, `allocation_failure`, `indent`,
`nr_tabstops` and `cur_tabstop`; everything else is untouched. -/
def printbuf_reset (buf : Printbuf) : Printbuf :=
  { buf with
    pos := 0
    allocation_failure := false
    indent := 0
    nr_tabstops := 0
    cur_tabstop := 0 }

/-- `printbuf_atomic_inc`: `buf->atomic++` (a `u8`, so mod 256). -/
def printbuf_atomic_inc (buf : Printbuf) : Printbuf :=
  { buf with atomic := (buf.atomic + 1) % 256 }

/-- `printbuf_atomic_dec`: `buf->atomic--` (a `u8`, so wrapping mod 256). -/
def printbuf_atomic_dec (buf : Printbuf) : Printbuf :=
  { buf with atomic := (buf.atomic + 255) % 256 }

/-- The mutating operations defined (inline) in the header, plus
`printbuf_make_room`, as one step type. -/
inductive HOp where
  | char_reserved (c : Nat)
  | char_nonul (c : Nat)
  | char (c : Nat)
  | chars_reserved (c n : Nat)
  | chars (c n : Nat)
  | bytes (bs : List Nat) (n : Nat)
  | str (s : List Nat)
  | hex_byte (b : Nat)
  | hex_byte_upper (b : Nat)
  | nul_terminate
  | make_room (n : Nat)
  | reset
  | atomic_inc
  | atomic_dec
  deriving DecidableEq, Repr

/-- Interpretation of one header operation. -/
def stepH : HOp → Printbuf → Printbuf
  | .char_reserved c, out => __prt_char_reserved out c
  | .char_nonul c, out => __prt_char out c
  | .char c, out => prt_char out c
  | .chars_reserved c n, out => __prt_chars_reserved out c n
  | .chars c n, out => prt_chars out c n
  | .bytes bs n, out => prt_bytes out bs n
  | .str s, out => prt_str out s
  | .hex_byte b, out => prt_hex_byte out b
  | .hex_byte_upper b, out => prt_hex_byte_upper out b
  | .nul_terminate, out => printbuf_nul_terminate out
  | .make_room n, out => printbuf_make_room out n
  | .reset, out => printbuf_reset out
  | .atomic_inc, out => printbuf_atomic_inc out
  | .atomic_dec, out => printbuf_atomic_dec out

/-- Run a sequence of header operations left to right. -/
def runH (out : Printbuf) (ops : List HOp) : Printbuf :=
  ops.foldl (fun s op => stepH op s) out

/-- The five public write primitives of claim C1 (`prt_bytes` is well-formed
when the declared length does not exceed the supplied bytes). -/
def isPubPrim : HOp → Bool
  | .char _ => true
  | .chars _ _ => true
  | .bytes bs n => n ≤ bs.length
  | .str _ => true
  | .hex_byte _ => true
  | _ => false

/-- The six public write operations (claim C6). -/
def isPubWrite : HOp → Bool
  | .char _ => true
  | .chars _ _ => true
  | .bytes _ _ => true
  | .str _ => true
  | .hex_byte _ => true
  | .hex_byte_upper _ => true
  | _ => false

/-- The logical (requested) byte sequence of a public write primitive. -/
def reqBytes : HOp → List Nat
  | .char c => [c]
  | .chars c n => List.replicate n c
  | .bytes bs n => bs.take n
  | .str s => s
  | .hex_byte b => [hex_asc_hi b, hex_asc_lo b]
  | .hex_byte_upper b => [hex_asc_upper_hi b, hex_asc_upper_lo b]
  | _ => []

/-- The materialized output: the bytes of `data[0 .. written)`. -/
def printbuf_contents (out : Printbuf) : List (Option Nat) :=
  (List.range (printbuf_written out)).map out.buf

/-- The scale base selected by `enum printbuf_si`. -/
def human_base : printbuf_si → Nat
  | .PRINTBUF_UNITS_2 => 1024
  | .PRINTBUF_UNITS_10 => 1000

/-- Decimal digit characters of a natural number. -/
def natDecDigits (n : Nat) : List Nat := (Nat.toDigits 10 n).map Char.toNat

/-- Magnitude suffixes K, M, G, T, P, E for exponents 1..6. -/
def si_suffix : Nat → List Nat
  | 1 => [75]
  | 2 => [77]
  | 3 => [71]
  | 4 => [84]
  | 5 => [80]
  | 6 => [69]
  | _ => []

/-- The magnitude step: divide by the base while the value is at least the
base, at most `fuel` times (the suffix table K..E allows at most six steps). -/
def si_exp_aux (base : Nat) : Nat → Nat → Nat
  | 0, _ => 0
  | fuel + 1, v => if base ≤ v then si_exp_aux base fuel (v / base) + 1 else 0

/-- The exponent of the chosen magnitude suffix (0 = no suffix, 1..6 = K..E). -/
def si_exp (base v : Nat) : Nat := si_exp_aux base 6 v

/-- Modelled from the spec: the rendering performed by
`prt_human_readable_u64`, whose body is not under `src` (the header only
declares it).  Per the spec (section 4.5): step to the next suffix whenever the
value reaches the base in the current unit (suffixes K..E, so at most six
steps); values below the first threshold render as a plain integer with no
suffix; otherwise render the integer quotient, a dot, the first decimal digit
of the remainder over the scale factor (truncated, not rounded), and the
suffix. -/
def human_readable_bytes (base v : Nat) : List Nat :=
  let e := si_exp base v
  if e = 0 then natDecDigits v
  else
    let scale := base ^ e
    natDecDigits (v / scale) ++ [46, 48 + v % scale * 10 / scale] ++ si_suffix e

/-- Modelled from the spec: `prt_human_readable_u64` writes the human-readable
rendering of `v`, in the unit mode given by `si_units`, through the public
byte-span write. -/
def prt_human_readable_u64 (out : Printbuf) (v : Nat) : Printbuf :=
  let s := human_readable_bytes (human_base out.si_units) v
  prt_bytes out s s.length

/-- Modelled from the spec: the signed variant handles the sign separately (a
leading `-`, byte 45) and formats the absolute magnitude. -/
def prt_human_readable_s64 (out : Printbuf) (v : Int) : Printbuf :=
  if v < 0 then prt_human_readable_u64 (prt_char out 45) v.natAbs
  else prt_human_readable_u64 out v.natAbs

/-- State equivalence used to prove reset-reuse: agreement on the fields the
header operations read and write (`buf` up to `size`, `pos`, `size`,
`heap_allocated`, `allocation_failure`). -/
def simEq (s t : Printbuf) : Prop :=
  s.pos = t.pos ∧ s.size = t.size ∧ s.heap_allocated = t.heap_allocated ∧
    s.allocation_failure = t.allocation_failure ∧ ∀ i, i < s.size → s.buf i = t.buf i

/-- Observable equivalence of two printbufs: same cursor, same accessor
results, and the same stored content `data[0 .. written)`. -/
def obsEqv (s t : Printbuf) : Prop :=
  s.pos = t.pos ∧ printbuf_written s = printbuf_written t ∧
    printbuf_overflowed s = printbuf_overflowed t ∧
    printbuf_remaining s = printbuf_remaining t ∧
    printbuf_remaining_size s = printbuf_remaining_size t ∧
    ∀ i, i < printbuf_written s → s.buf i = t.buf i

/-- Effect of a single public write primitive on an external printbuf:
`pos` advances by the full requested length, `size` and ownership are
untouched, the already-materialized region below the old cursor is preserved,
and the newly materialized region carries the requested bytes. -/
def PubStep (out r : Printbuf) (req : List Nat) : Prop :=
  r.pos = out.pos + req.length ∧ r.size = out.size ∧
    r.heap_allocated = out.heap_allocated ∧
    (∀ i, i < out.pos → i < out.size - 1 → r.buf i = out.buf i) ∧
    (∀ i, out.pos ≤ i → i < min r.pos (out.size - 1) →
      r.buf i = some (req.getD (i - out.pos) 0))

/-- The logical byte sequence requested by a sequence of write primitives. -/
def reqConcat (ops : List HOp) : List Nat :=
  ops.foldr (fun op acc => reqBytes op ++ acc) []

/-- A small concrete external printbuf used by the witness theorems. -/
def wOut : Printbuf := PRINTBUF_EXTERN (fun _ => some 7) 3

/-- A concrete external printbuf that has already been written to, used by the
reset-reuse witness. -/
def wDirty : Printbuf :=
  { PRINTBUF_EXTERN (fun _ => some 7) 3 with pos := 2, indent := 5, last_newline := 1 }

example :
    printbuf_contents (prt_str (PRINTBUF_EXTERN (fun _ => some 7) 4) [97, 98, 99, 100, 101]) =
      [some 97, some 98, some 99] := by decide

example :
    (prt_str (PRINTBUF_EXTERN (fun _ => some 7) 4) [97, 98, 99, 100, 101]).pos = 5 := by decide

example :
    printbuf_contents
        (prt_human_readable_u64
          { PRINTBUF_EXTERN (fun _ => some 0) 32 with si_units := .PRINTBUF_UNITS_2 } 1536) =
      [some 49, some 46, some 53, some 75] := by decide

/-! ### Characterization lemmas for the primitive operations -/

theorem bufSet_apply (f : Nat → Option Nat) (i v j : Nat) :
    bufSet f i v j = if j = i then some v else f j := rfl

theorem remaining_ne_zero_iff (out : Printbuf) :
    printbuf_remaining out ≠ 0 ↔ out.pos + 1 < out.size := by
  unfold printbuf_remaining
  split <;> omega

theorem remaining_eq (out : Printbuf) :
    printbuf_remaining out = out.size - out.pos - 1 := by
  unfold printbuf_remaining
  split <;> omega

theorem replicate_getD (k c j : Nat) (h : j < k) :
    (List.replicate k c).getD j 0 = c := by
  induction k generalizing j with
  | zero => omega
  | succ k ih =>
    cases j with
    | zero => rfl
    | succ j => simpa [List.replicate] using ih j (by omega)

theorem take_getD (bs : List Nat) (k j : Nat) (h : j < k) :
    (bs.take k).getD j 0 = bs.getD j 0 := by
  induction bs generalizing k j with
  | nil => simp
  | cons b rest ih =>
    cases k with
    | zero => omega
    | succ k =>
      cases j with
      | zero => rfl
      | succ j => simpa using ih k j (by omega)

theorem prt_bytes_loop_apply (bs : List Nat) (buf : Nat → Option Nat) (p i : Nat) :
    prt_bytes_loop buf p bs i =
      if p ≤ i ∧ i < p + bs.length then some (bs.getD (i - p) 0) else buf i := by
  induction bs generalizing buf p with
  | nil =>
    simp only [prt_bytes_loop, List.length_nil, Nat.add_zero]
    exact (if_neg (by omega)).symm
  | cons b rest ih =>
    simp only [prt_bytes_loop]
    rw [ih]
    by_cases h1 : p + 1 ≤ i ∧ i < p + 1 + rest.length
    · rw [if_pos h1, if_pos (by simp only [List.length_cons]; omega)]
      have hd : i - p = (i - (p + 1)) + 1 := by omega
      rw [hd, List.getD_cons_succ]
    · rw [if_neg h1]
      by_cases h2 : p ≤ i ∧ i < p + (b :: rest).length
      · have hip : i = p := by simp only [List.length_cons] at h1 h2; omega
        rw [if_pos h2]
        simp [bufSet, hip]
      · have hip : i ≠ p := by
          intro hc; exact h2 ⟨le_of_eq hc.symm, by simp only [List.length_cons]; omega⟩
        rw [if_neg h2]
        simp [bufSet, hip]

/-! ### `printbuf_make_room` lemmas -/

theorem make_room_pos (out : Printbuf) (extra : Nat) :
    (printbuf_make_room out extra).pos = out.pos := by
  unfold printbuf_make_room
  split
  · rfl
  · split <;> rfl

theorem make_room_heap (out : Printbuf) (extra : Nat) :
    (printbuf_make_room out extra).heap_allocated = out.heap_allocated := by
  unfold printbuf_make_room
  split
  · rfl
  · split <;> rfl

theorem make_room_af (out : Printbuf) (extra : Nat) :
    (printbuf_make_room out extra).allocation_failure = out.allocation_failure := by
  unfold printbuf_make_room
  split
  · rfl
  · split <;> rfl

theorem make_room_size_le (out : Printbuf) (extra : Nat) :
    out.size ≤ (printbuf_make_room out extra).size := by
  unfold printbuf_make_room
  split
  · exact le_refl _
  · split
    · exact le_refl _
    · next h h2 =>
      have hle : out.pos + extra + 1 ≤ 2 ^ Nat.clog 2 (out.pos + extra + 1) :=
        Nat.le_pow_clog one_lt_two _
      simp only
      omega

theorem make_room_buf_lt (out : Printbuf) (extra i : Nat) (h : i < out.size) :
    (printbuf_make_room out extra).buf i = out.buf i := by
  unfold printbuf_make_room
  split
  · rfl
  · split
    · rfl
    · simp only [if_pos h]

theorem make_room_eq (out : Printbuf) (extra : Nat) :
    printbuf_make_room out extra = out ∨
      (¬ out.pos + extra + 1 ≤ out.size ∧
        printbuf_make_room out extra =
          { out with
            size := 2 ^ Nat.clog 2 (out.pos + extra + 1),
            buf := fun i =>
              if i < out.size then out.buf i
              else if i < 2 ^ Nat.clog 2 (out.pos + extra + 1) then none
              else out.buf i }) := by
  unfold printbuf_make_room
  split
  · exact Or.inl rfl
  · split
    · exact Or.inl rfl
    · next hr => exact Or.inr ⟨hr, rfl⟩

theorem make_room_buf_wipe (out : Printbuf) (extra i : Nat) (h : out.size ≤ i)
    (h2 : i < (printbuf_make_room out extra).size) :
    (printbuf_make_room out extra).buf i = none := by
  rcases make_room_eq out extra with heq | ⟨hr, heq⟩
  · rw [heq] at h2; omega
  · rw [heq] at h2 ⊢
    simp only at h2 ⊢
    rw [if_neg (by omega), if_pos h2]

theorem make_room_buf_ge (out : Printbuf) (extra i : Nat)
    (h : (printbuf_make_room out extra).size ≤ i) :
    (printbuf_make_room out extra).buf i = out.buf i := by
  rcases make_room_eq out extra with heq | ⟨hr, heq⟩
  · rw [heq]
  · have hp := Nat.le_pow_clog one_lt_two (out.pos + extra + 1)
    rw [heq] at h ⊢
    simp only at h ⊢
    rw [if_neg (by omega), if_neg (by omega)]

theorem make_room_not_heap (out : Printbuf) (extra : Nat) (h : out.heap_allocated = false) :
    printbuf_make_room out extra = out := by
  unfold printbuf_make_room
  rw [if_pos h]

theorem make_room_size_congr (s t : Printbuf) (extra : Nat)
    (hpos : s.pos = t.pos) (hsize : s.size = t.size)
    (hheap : s.heap_allocated = t.heap_allocated) :
    (printbuf_make_room s extra).size = (printbuf_make_room t extra).size := by
  unfold printbuf_make_room
  rw [hpos, hsize, hheap]
  split
  · exact hsize
  · split
    · exact hsize
    · rfl

/-! ### `__prt_char_reserved` lemmas -/

theorem char_reserved_pos (out : Printbuf) (c : Nat) :
    (__prt_char_reserved out c).pos = out.pos + 1 := by
  unfold __prt_char_reserved
  dsimp only
  split <;> rfl

theorem char_reserved_size (out : Printbuf) (c : Nat) :
    (__prt_char_reserved out c).size = out.size := by
  unfold __prt_char_reserved
  dsimp only
  split <;> rfl

theorem char_reserved_heap (out : Printbuf) (c : Nat) :
    (__prt_char_reserved out c).heap_allocated = out.heap_allocated := by
  unfold __prt_char_reserved
  dsimp only
  split <;> rfl

theorem char_reserved_af (out : Printbuf) (c : Nat) :
    (__prt_char_reserved out c).allocation_failure = out.allocation_failure := by
  unfold __prt_char_reserved
  dsimp only
  split <;> rfl

theorem char_reserved_buf (out : Printbuf) (c i : Nat) :
    (__prt_char_reserved out c).buf i =
      if i = out.pos ∧ out.pos + 1 < out.size then some c else out.buf i := by
  unfold __prt_char_reserved
  dsimp only
  split
  · next h =>
    have hlt : out.pos + 1 < out.size := (remaining_ne_zero_iff out).mp h
    by_cases hip : i = out.pos
    · rw [if_pos ⟨hip, hlt⟩]
      simp [bufSet, hip]
    · rw [if_neg (by tauto)]
      simp [bufSet, hip]
  · next h =>
    have hlt : ¬ out.pos + 1 < out.size := fun hc => h ((remaining_ne_zero_iff out).mpr hc)
    rw [if_neg (by tauto)]

/-! ### `__prt_chars_reserved` and the `prt_bytes` body -/

theorem chars_reserved_pos (out : Printbuf) (c n : Nat) :
    (__prt_chars_reserved out c n).pos = out.pos + n := by
  unfold __prt_chars_reserved
  dsimp only
  omega

theorem chars_reserved_size (out : Printbuf) (c n : Nat) :
    (__prt_chars_reserved out c n).size = out.size := rfl

theorem chars_reserved_heap (out : Printbuf) (c n : Nat) :
    (__prt_chars_reserved out c n).heap_allocated = out.heap_allocated := rfl

theorem chars_reserved_af (out : Printbuf) (c n : Nat) :
    (__prt_chars_reserved out c n).allocation_failure = out.allocation_failure := rfl

theorem chars_reserved_buf (out : Printbuf) (c n i : Nat) :
    (__prt_chars_reserved out c n).buf i =
      if out.pos ≤ i ∧ i < out.pos + min n (printbuf_remaining out) then some c
      else out.buf i := by
  unfold __prt_chars_reserved
  dsimp only
  rw [prt_bytes_loop_apply]
  rw [List.length_replicate]
  by_cases h : out.pos ≤ i ∧ i < out.pos + min n (printbuf_remaining out)
  · rw [if_pos h, if_pos h]
    rw [replicate_getD _ _ _ (by omega)]
  · rw [if_neg h, if_neg h]

theorem bytes_body_pos (out : Printbuf) (b : List Nat) (n : Nat) :
    (prt_bytes_body out b n).pos = out.pos + n := by
  unfold prt_bytes_body
  dsimp only
  omega

theorem bytes_body_size (out : Printbuf) (b : List Nat) (n : Nat) :
    (prt_bytes_body out b n).size = out.size := rfl

theorem bytes_body_heap (out : Printbuf) (b : List Nat) (n : Nat) :
    (prt_bytes_body out b n).heap_allocated = out.heap_allocated := rfl

theorem bytes_body_af (out : Printbuf) (b : List Nat) (n : Nat) :
    (prt_bytes_body out b n).allocation_failure = out.allocation_failure := rfl

theorem bytes_body_buf (out : Printbuf) (b : List Nat) (n i : Nat) :
    (prt_bytes_body out b n).buf i =
      if out.pos ≤ i ∧ i < out.pos + (b.take (min n (printbuf_remaining out))).length
      then some ((b.take (min n (printbuf_remaining out))).getD (i - out.pos) 0)
      else out.buf i := by
  unfold prt_bytes_body
  dsimp only
  rw [prt_bytes_loop_apply]

theorem bytes_body_buf_wf (out : Printbuf) (b : List Nat) (n i : Nat)
    (hwf : min n (printbuf_remaining out) ≤ b.length) :
    (prt_bytes_body out b n).buf i =
      if out.pos ≤ i ∧ i < out.pos + min n (printbuf_remaining out)
      then some (b.getD (i - out.pos) 0)
      else out.buf i := by
  rw [bytes_body_buf]
  rw [List.length_take, Nat.min_eq_left hwf]
  by_cases h : out.pos ≤ i ∧ i < out.pos + min n (printbuf_remaining out)
  · rw [if_pos h, if_pos h, take_getD _ _ _ (by omega)]
  · rw [if_neg h, if_neg h]

/-! ### `printbuf_nul_terminate` lemmas -/

theorem nul_terminate_pos (out : Printbuf) :
    (printbuf_nul_terminate out).pos = out.pos := by
  unfold printbuf_nul_terminate
  dsimp only
  split
  · exact make_room_pos out 1
  · split
    · exact make_room_pos out 1
    · exact make_room_pos out 1

theorem nul_terminate_size (out : Printbuf) :
    (printbuf_nul_terminate out).size = (printbuf_make_room out 1).size := by
  unfold printbuf_nul_terminate
  dsimp only
  split
  · rfl
  · split <;> rfl

theorem nul_terminate_heap (out : Printbuf) :
    (printbuf_nul_terminate out).heap_allocated = out.heap_allocated := by
  unfold printbuf_nul_terminate
  dsimp only
  split
  · exact make_room_heap out 1
  · split
    · exact make_room_heap out 1
    · exact make_room_heap out 1

theorem nul_terminate_af (out : Printbuf) :
    (printbuf_nul_terminate out).allocation_failure = out.allocation_failure := by
  unfold printbuf_nul_terminate
  dsimp only
  split
  · exact make_room_af out 1
  · split
    · exact make_room_af out 1
    · exact make_room_af out 1

theorem nul_terminate_buf (out : Printbuf) (i : Nat) :
    (printbuf_nul_terminate out).buf i =
      if (printbuf_make_room out 1).size ≠ 0 ∧
          i = min out.pos ((printbuf_make_room out 1).size - 1)
      then some 0
      else (printbuf_make_room out 1).buf i := by
  unfold printbuf_nul_terminate
  dsimp only
  rw [make_room_pos out 1]
  split
  · next h =>
    have hmin : min out.pos ((printbuf_make_room out 1).size - 1) = out.pos := by omega
    by_cases hip : i = out.pos
    · rw [if_pos ⟨by omega, by omega⟩]
      simp [bufSet, hip]
    · rw [if_neg (by omega)]
      simp [bufSet, hip]
  · next h =>
    split
    · next h2 =>
      have hmin : min out.pos ((printbuf_make_room out 1).size - 1) =
          (printbuf_make_room out 1).size - 1 := by omega
      by_cases hip : i = (printbuf_make_room out 1).size - 1
      · rw [if_pos ⟨h2, by omega⟩]
        simp [bufSet, hip]
      · rw [if_neg (by omega)]
        simp [bufSet, hip]
    · next h2 =>
      rw [if_neg (by tauto)]

/-! ### Cursor lemmas for the public operations -/

theorem __prt_char_pos (out : Printbuf) (c : Nat) :
    (__prt_char out c).pos = out.pos + 1 := by
  unfold __prt_char
  rw [char_reserved_pos, make_room_pos]

theorem prt_char_pos (out : Printbuf) (c : Nat) :
    (prt_char out c).pos = out.pos + 1 := by
  unfold prt_char
  rw [nul_terminate_pos, __prt_char_pos]

theorem prt_chars_pos (out : Printbuf) (c n : Nat) :
    (prt_chars out c n).pos = out.pos + n := by
  unfold prt_chars
  rw [nul_terminate_pos, chars_reserved_pos, make_room_pos]

theorem prt_bytes_pos (out : Printbuf) (b : List Nat) (n : Nat) :
    (prt_bytes out b n).pos = out.pos + n := by
  unfold prt_bytes
  rw [nul_terminate_pos, bytes_body_pos, make_room_pos]

theorem prt_str_pos (out : Printbuf) (s : List Nat) :
    (prt_str out s).pos = out.pos + s.length := by
  unfold prt_str
  exact prt_bytes_pos out s s.length

theorem prt_hex_byte_pos (out : Printbuf) (b : Nat) :
    (prt_hex_byte out b).pos = out.pos + 2 := by
  unfold prt_hex_byte
  rw [nul_terminate_pos, char_reserved_pos, char_reserved_pos, make_room_pos]

theorem prt_hex_byte_upper_pos (out : Printbuf) (b : Nat) :
    (prt_hex_byte_upper out b).pos = out.pos + 2 := by
  unfold prt_hex_byte_upper
  rw [nul_terminate_pos, char_reserved_pos, char_reserved_pos, make_room_pos]

/-! ### Size lemmas for the public operations -/

theorem __prt_char_size (out : Printbuf) (c : Nat) :
    (__prt_char out c).size = (printbuf_make_room out 1).size := by
  unfold __prt_char
  rw [char_reserved_size]

theorem nul_terminate_size_le (out : Printbuf) :
    out.size ≤ (printbuf_nul_terminate out).size := by
  rw [nul_terminate_size]
  exact make_room_size_le out 1

theorem prt_char_size_le (out : Printbuf) (c : Nat) :
    out.size ≤ (prt_char out c).size := by
  unfold prt_char
  calc out.size ≤ (printbuf_make_room out 1).size := make_room_size_le out 1
    _ = (__prt_char out c).size := (__prt_char_size out c).symm
    _ ≤ _ := nul_terminate_size_le _

theorem prt_chars_size_le (out : Printbuf) (c n : Nat) :
    out.size ≤ (prt_chars out c n).size := by
  unfold prt_chars
  calc out.size ≤ (printbuf_make_room out n).size := make_room_size_le out n
    _ = (__prt_chars_reserved (printbuf_make_room out n) c n).size :=
        (chars_reserved_size _ c n).symm
    _ ≤ _ := nul_terminate_size_le _

theorem prt_bytes_size_le (out : Printbuf) (b : List Nat) (n : Nat) :
    out.size ≤ (prt_bytes out b n).size := by
  unfold prt_bytes
  calc out.size ≤ (printbuf_make_room out n).size := make_room_size_le out n
    _ = (prt_bytes_body (printbuf_make_room out n) b n).size := (bytes_body_size _ b n).symm
    _ ≤ _ := nul_terminate_size_le _

theorem prt_hex_byte_size_le (out : Printbuf) (b : Nat) :
    out.size ≤ (prt_hex_byte out b).size := by
  unfold prt_hex_byte
  calc out.size ≤ (printbuf_make_room out 2).size := make_room_size_le out 2
    _ = (__prt_char_reserved (__prt_char_reserved (printbuf_make_room out 2)
          (hex_asc_hi b)) (hex_asc_lo b)).size := by rw [char_reserved_size, char_reserved_size]
    _ ≤ _ := nul_terminate_size_le _

theorem prt_hex_byte_upper_size_le (out : Printbuf) (b : Nat) :
    out.size ≤ (prt_hex_byte_upper out b).size := by
  unfold prt_hex_byte_upper
  calc out.size ≤ (printbuf_make_room out 2).size := make_room_size_le out 2
    _ = (__prt_char_reserved (__prt_char_reserved (printbuf_make_room out 2)
          (hex_asc_upper_hi b)) (hex_asc_upper_lo b)).size := by
        rw [char_reserved_size, char_reserved_size]
    _ ≤ _ := nul_terminate_size_le _

/-! ### No store at or beyond capacity -/

theorem char_reserved_buf_ge (out : Printbuf) (c i : Nat) (h : out.size ≤ i) :
    (__prt_char_reserved out c).buf i = out.buf i := by
  rw [char_reserved_buf, if_neg (by omega)]

theorem chars_reserved_buf_ge (out : Printbuf) (c n i : Nat) (h : out.size ≤ i) :
    (__prt_chars_reserved out c n).buf i = out.buf i := by
  rw [chars_reserved_buf, if_neg (by have hr := remaining_eq out; omega)]

theorem bytes_body_buf_ge (out : Printbuf) (b : List Nat) (n i : Nat) (h : out.size ≤ i) :
    (prt_bytes_body out b n).buf i = out.buf i := by
  rw [bytes_body_buf]
  have hl : (b.take (min n (printbuf_remaining out))).length ≤ printbuf_remaining out := by
    rw [List.length_take]
    have := remaining_eq out
    omega
  rw [if_neg (by have hr := remaining_eq out; omega)]

theorem nul_terminate_buf_ge (out : Printbuf) (i : Nat)
    (h : (printbuf_nul_terminate out).size ≤ i) :
    (printbuf_nul_terminate out).buf i = out.buf i := by
  rw [nul_terminate_size] at h
  rw [nul_terminate_buf, if_neg (by omega), make_room_buf_ge _ _ _ h]

/-! ### Claims C2, C3, C4, C10 -/

/-- C2: for every printbuf, `printbuf_written` returns `min(pos, size - 1)`
when `size > 0`, and returns 0 when `size == 0`. -/
theorem C2_written_spec (out : Printbuf) :
    (0 < out.size → printbuf_written out = min out.pos (out.size - 1)) ∧
    (out.size = 0 → printbuf_written out = 0) := by
  unfold printbuf_written
  constructor
  · intro h
    rw [if_pos (by omega)]
  · intro h
    rw [if_neg (by omega)]

theorem C2_written_spec_witness :
    (0 < wOut.size ∧ printbuf_written wOut = min wOut.pos (wOut.size - 1)) ∧
    (PRINTBUF.size = 0 ∧ printbuf_written PRINTBUF = 0) :=
  ⟨⟨by decide, (C2_written_spec wOut).1 (by decide)⟩,
   ⟨by decide, (C2_written_spec PRINTBUF).2 (by decide)⟩⟩

/-- C3 counterexample: writing one char into an external buffer of capacity 1
reaches `pos = size = 1`, where `printbuf_overflowed` is true although
`pos > size` does not hold — the claimed equivalence `overflowed ↔ pos > size`
is false. -/
theorem C3_counterexample :
    printbuf_overflowed (prt_char (PRINTBUF_EXTERN (fun _ => some 0) 1) 97) = true ∧
      ¬ (prt_char (PRINTBUF_EXTERN (fun _ => some 0) 1) 97).size <
          (prt_char (PRINTBUF_EXTERN (fun _ => some 0) 1) 97).pos := by
  decide

/-- C3 (amended): `printbuf_overflowed` is true iff `pos ≥ size`; and when
`size > 0` this is furthermore equivalent to `printbuf_written(out) < pos`. -/
theorem C3_overflowed_spec (out : Printbuf) :
    (printbuf_overflowed out = true ↔ out.size ≤ out.pos) ∧
    (0 < out.size → (printbuf_overflowed out = true ↔ printbuf_written out < out.pos)) := by
  constructor
  · simp [printbuf_overflowed]
  · intro h
    unfold printbuf_written
    rw [if_pos (by omega)]
    simp only [printbuf_overflowed, decide_eq_true_eq]
    omega

theorem C3_overflowed_spec_witness :
    0 < wOut.size ∧
      (printbuf_overflowed wOut = true ↔ printbuf_written wOut < wOut.pos) :=
  ⟨by decide, (C3_overflowed_spec wOut).2 (by decide)⟩

/-- C4: the reserved variants advance `pos` by exactly the requested length
regardless of room, store at most `min(n, printbuf_remaining(out))` bytes (all
of them in `[pos, pos + min(n, remaining))`), and never write at the
terminator slot `data[size - 1]` or beyond. -/
theorem C4_reserved_contract (out : Printbuf) (c n : Nat) :
    (__prt_char_reserved out c).pos = out.pos + 1 ∧
    (__prt_chars_reserved out c n).pos = out.pos + n ∧
    (∀ i, ¬ (out.pos ≤ i ∧ i < out.pos + min 1 (printbuf_remaining out)) →
      (__prt_char_reserved out c).buf i = out.buf i) ∧
    (∀ i, ¬ (out.pos ≤ i ∧ i < out.pos + min n (printbuf_remaining out)) →
      (__prt_chars_reserved out c n).buf i = out.buf i) ∧
    (∀ i, out.size - 1 ≤ i → (__prt_char_reserved out c).buf i = out.buf i) ∧
    (∀ i, out.size - 1 ≤ i → (__prt_chars_reserved out c n).buf i = out.buf i) := by
  have hr := remaining_eq out
  refine ⟨char_reserved_pos out c, chars_reserved_pos out c n, ?_, ?_, ?_, ?_⟩
  · intro i hni
    rw [char_reserved_buf, if_neg (by omega)]
  · intro i hni
    rw [chars_reserved_buf, if_neg (by omega)]
  · intro i hi
    rw [char_reserved_buf, if_neg (by omega)]
  · intro i hi
    rw [chars_reserved_buf, if_neg (by omega)]

theorem C4_reserved_contract_witness :
    ((__prt_char_reserved wOut 97).pos = wOut.pos + 1) ∧
    ((__prt_chars_reserved wOut 97 5).pos = wOut.pos + 5) ∧
    (¬ (wOut.pos ≤ 4 ∧ 4 < wOut.pos + min 5 (printbuf_remaining wOut)) ∧
      (__prt_chars_reserved wOut 97 5).buf 4 = wOut.buf 4) ∧
    (wOut.size - 1 ≤ 2 ∧ (__prt_char_reserved wOut 97).buf 2 = wOut.buf 2) :=
  ⟨(C4_reserved_contract wOut 97 5).1,
   (C4_reserved_contract wOut 97 5).2.1,
   ⟨by decide, (C4_reserved_contract wOut 97 5).2.2.2.1 4 (by decide)⟩,
   ⟨by decide, (C4_reserved_contract wOut 97 5).2.2.2.2.1 2 (by decide)⟩⟩

/-- C10: `printbuf_reset` zeroes exactly `pos`, `allocation_failure`,
`indent`, `nr_tabstops` and `cur_tabstop`, and leaves every other field —
`buf`, `size`, `heap_allocated`, `atomic`, `si_units`,
`human_readable_units`, `has_indent_or_tabstops`,
`suppress_indent_tabstop_handling`, the tabstop array, and notably
`last_newline` and `last_field` — unchanged. -/
theorem C10_reset_frame (p : Printbuf) :
    (printbuf_reset p).pos = 0 ∧
    (printbuf_reset p).allocation_failure = false ∧
    (printbuf_reset p).indent = 0 ∧
    (printbuf_reset p).nr_tabstops = 0 ∧
    (printbuf_reset p).cur_tabstop = 0 ∧
    (printbuf_reset p).buf = p.buf ∧
    (printbuf_reset p).size = p.size ∧
    (printbuf_reset p).heap_allocated = p.heap_allocated ∧
    (printbuf_reset p).atomic = p.atomic ∧
    (printbuf_reset p).si_units = p.si_units ∧
    (printbuf_reset p).human_readable_units = p.human_readable_units ∧
    (printbuf_reset p).has_indent_or_tabstops = p.has_indent_or_tabstops ∧
    (printbuf_reset p).suppress_indent_tabstop_handling = p.suppress_indent_tabstop_handling ∧
    (printbuf_reset p).tabstops = p.tabstops ∧
    (printbuf_reset p).last_newline = p.last_newline ∧
    (printbuf_reset p).last_field = p.last_field :=
  ⟨rfl, rfl, rfl, rfl, rfl, rfl, rfl, rfl, rfl, rfl, rfl, rfl, rfl, rfl, rfl, rfl⟩

/-! ### Claim C8: cursor monotonicity -/

/-- C8: every header operation other than `printbuf_reset` leaves `pos`
greater than or equal to its previous value. -/
theorem C8_pos_monotone (out : Printbuf) (op : HOp) (h : op ≠ HOp.reset) :
    out.pos ≤ (stepH op out).pos := by
  cases op with
  | char_reserved c => simp only [stepH]; rw [char_reserved_pos]; omega
  | char_nonul c => simp only [stepH]; rw [__prt_char_pos]; omega
  | char c => simp only [stepH]; rw [prt_char_pos]; omega
  | chars_reserved c n => simp only [stepH]; rw [chars_reserved_pos]; omega
  | chars c n => simp only [stepH]; rw [prt_chars_pos]; omega
  | bytes bs n => simp only [stepH]; rw [prt_bytes_pos]; omega
  | str s => simp only [stepH]; rw [prt_str_pos]; omega
  | hex_byte b => simp only [stepH]; rw [prt_hex_byte_pos]; omega
  | hex_byte_upper b => simp only [stepH]; rw [prt_hex_byte_upper_pos]; omega
  | nul_terminate => simp only [stepH]; rw [nul_terminate_pos]
  | make_room n => simp only [stepH]; rw [make_room_pos]
  | reset => exact absurd rfl h
  | atomic_inc => simp only [stepH]; exact le_refl _
  | atomic_dec => simp only [stepH]; exact le_refl _

theorem C8_pos_monotone_witness :
    HOp.char 97 ≠ HOp.reset ∧ wOut.pos ≤ (stepH (HOp.char 97) wOut).pos :=
  ⟨by decide, C8_pos_monotone wOut (HOp.char 97) (by decide)⟩

/-! ### Claim C5: no store at or beyond capacity -/

theorem prt_char_buf_ge (out : Printbuf) (c i : Nat) (h : (prt_char out c).size ≤ i) :
    (prt_char out c).buf i = out.buf i := by
  unfold prt_char at h ⊢
  have h2 : (__prt_char out c).size ≤ i := le_trans (nul_terminate_size_le _) h
  rw [nul_terminate_buf_ge _ _ h]
  unfold __prt_char at h2 ⊢
  rw [char_reserved_size] at h2
  rw [char_reserved_buf_ge _ _ _ h2]
  exact make_room_buf_ge _ _ _ h2

theorem prt_chars_buf_ge (out : Printbuf) (c n i : Nat) (h : (prt_chars out c n).size ≤ i) :
    (prt_chars out c n).buf i = out.buf i := by
  unfold prt_chars at h ⊢
  have h2 : (__prt_chars_reserved (printbuf_make_room out n) c n).size ≤ i :=
    le_trans (nul_terminate_size_le _) h
  rw [nul_terminate_buf_ge _ _ h]
  rw [chars_reserved_size] at h2
  rw [chars_reserved_buf_ge _ _ _ _ h2]
  exact make_room_buf_ge _ _ _ h2

theorem prt_bytes_buf_ge (out : Printbuf) (b : List Nat) (n i : Nat)
    (h : (prt_bytes out b n).size ≤ i) :
    (prt_bytes out b n).buf i = out.buf i := by
  unfold prt_bytes at h ⊢
  have h2 : (prt_bytes_body (printbuf_make_room out n) b n).size ≤ i :=
    le_trans (nul_terminate_size_le _) h
  rw [nul_terminate_buf_ge _ _ h]
  rw [bytes_body_size] at h2
  rw [bytes_body_buf_ge _ _ _ _ h2]
  exact make_room_buf_ge _ _ _ h2

theorem prt_hex_byte_buf_ge (out : Printbuf) (b i : Nat)
    (h : (prt_hex_byte out b).size ≤ i) :
    (prt_hex_byte out b).buf i = out.buf i := by
  unfold prt_hex_byte at h ⊢
  have h2 : (__prt_char_reserved (__prt_char_reserved (printbuf_make_room out 2)
      (hex_asc_hi b)) (hex_asc_lo b)).size ≤ i := le_trans (nul_terminate_size_le _) h
  rw [nul_terminate_buf_ge _ _ h]
  rw [char_reserved_size, char_reserved_size] at h2
  rw [char_reserved_buf_ge _ _ _ (by rw [char_reserved_size]; exact h2)]
  rw [char_reserved_buf_ge _ _ _ h2]
  exact make_room_buf_ge _ _ _ h2

theorem prt_hex_byte_upper_buf_ge (out : Printbuf) (b i : Nat)
    (h : (prt_hex_byte_upper out b).size ≤ i) :
    (prt_hex_byte_upper out b).buf i = out.buf i := by
  unfold prt_hex_byte_upper at h ⊢
  have h2 : (__prt_char_reserved (__prt_char_reserved (printbuf_make_room out 2)
      (hex_asc_upper_hi b)) (hex_asc_upper_lo b)).size ≤ i :=
    le_trans (nul_terminate_size_le _) h
  rw [nul_terminate_buf_ge _ _ h]
  rw [char_reserved_size, char_reserved_size] at h2
  rw [char_reserved_buf_ge _ _ _ (by rw [char_reserved_size]; exact h2)]
  rw [char_reserved_buf_ge _ _ _ h2]
  exact make_room_buf_ge _ _ _ h2

/-- C5: no operation of the header stores a byte at an index at or beyond the
buffer capacity — every cell at index `size` or above is left untouched. -/
theorem C5_inbounds (out : Printbuf) (op : HOp) (i : Nat)
    (h : (stepH op out).size ≤ i) :
    (stepH op out).buf i = out.buf i := by
  cases op with
  | char_reserved c =>
    simp only [stepH] at h ⊢
    rw [char_reserved_size] at h
    exact char_reserved_buf_ge out c i h
  | char_nonul c =>
    simp only [stepH] at h ⊢
    unfold __prt_char at h ⊢
    rw [char_reserved_size] at h
    rw [char_reserved_buf_ge _ _ _ h]
    exact make_room_buf_ge _ _ _ h
  | char c => exact prt_char_buf_ge out c i h
  | chars_reserved c n =>
    simp only [stepH] at h ⊢
    rw [chars_reserved_size] at h
    exact chars_reserved_buf_ge out c n i h
  | chars c n => exact prt_chars_buf_ge out c n i h
  | bytes bs n => exact prt_bytes_buf_ge out bs n i h
  | str s => exact prt_bytes_buf_ge out s s.length i h
  | hex_byte b => exact prt_hex_byte_buf_ge out b i h
  | hex_byte_upper b => exact prt_hex_byte_upper_buf_ge out b i h
  | nul_terminate => exact nul_terminate_buf_ge out i h
  | make_room n => exact make_room_buf_ge out n i h
  | reset => rfl
  | atomic_inc => rfl
  | atomic_dec => rfl

theorem C5_inbounds_witness :
    (stepH (HOp.chars 97 9) wOut).size ≤ 5 ∧
      (stepH (HOp.chars 97 9) wOut).buf 5 = wOut.buf 5 :=
  ⟨by decide, C5_inbounds wOut (HOp.chars 97 9) 5 (by decide)⟩

/-! ### Claim C6: public writes nul-terminate -/

theorem nul_terminate_writes_nul (out : Printbuf) (h : 0 < out.size) :
    (printbuf_nul_terminate out).buf
        (min (printbuf_nul_terminate out).pos ((printbuf_nul_terminate out).size - 1)) =
      some 0 := by
  have hm := make_room_size_le out 1
  rw [nul_terminate_pos, nul_terminate_size, nul_terminate_buf]
  rw [if_pos ⟨by omega, rfl⟩]

/-- C6: after every public write operation on a printbuf with `size > 0`, the
stored byte at index `min(pos, size - 1)` is the nul byte, regardless of the
requested write length. -/
theorem C6_nul_terminated (out : Printbuf) (op : HOp) (h : 0 < out.size)
    (hop : isPubWrite op = true) :
    (stepH op out).buf (min (stepH op out).pos ((stepH op out).size - 1)) = some 0 := by
  cases op with
  | char c =>
    simp only [stepH]
    unfold prt_char
    exact nul_terminate_writes_nul _
      (by rw [__prt_char_size]; exact lt_of_lt_of_le h (make_room_size_le out 1))
  | chars c n =>
    simp only [stepH]
    unfold prt_chars
    exact nul_terminate_writes_nul _
      (by rw [chars_reserved_size]; exact lt_of_lt_of_le h (make_room_size_le out n))
  | bytes bs n =>
    simp only [stepH]
    unfold prt_bytes
    exact nul_terminate_writes_nul _
      (by rw [bytes_body_size]; exact lt_of_lt_of_le h (make_room_size_le out n))
  | str s =>
    simp only [stepH]
    unfold prt_str prt_bytes
    exact nul_terminate_writes_nul _
      (by rw [bytes_body_size]; exact lt_of_lt_of_le h (make_room_size_le out s.length))
  | hex_byte b =>
    simp only [stepH]
    unfold prt_hex_byte
    exact nul_terminate_writes_nul _
      (by rw [char_reserved_size, char_reserved_size]
          exact lt_of_lt_of_le h (make_room_size_le out 2))
  | hex_byte_upper b =>
    simp only [stepH]
    unfold prt_hex_byte_upper
    exact nul_terminate_writes_nul _
      (by rw [char_reserved_size, char_reserved_size]
          exact lt_of_lt_of_le h (make_room_size_le out 2))
  | char_reserved c => simp [isPubWrite] at hop
  | char_nonul c => simp [isPubWrite] at hop
  | chars_reserved c n => simp [isPubWrite] at hop
  | nul_terminate => simp [isPubWrite] at hop
  | make_room n => simp [isPubWrite] at hop
  | reset => simp [isPubWrite] at hop
  | atomic_inc => simp [isPubWrite] at hop
  | atomic_dec => simp [isPubWrite] at hop

theorem C6_nul_terminated_witness :
    0 < wOut.size ∧ isPubWrite (HOp.str [104, 105]) = true ∧
      (stepH (HOp.str [104, 105]) wOut).buf
          (min (stepH (HOp.str [104, 105]) wOut).pos
            ((stepH (HOp.str [104, 105]) wOut).size - 1)) = some 0 :=
  ⟨by decide, by decide, C6_nul_terminated wOut (HOp.str [104, 105]) (by decide) (by decide)⟩

/-! ### Claim C7: reset-reuse equivalence -/

theorem remaining_congr (s t : Printbuf) (hpos : s.pos = t.pos) (hsize : s.size = t.size) :
    printbuf_remaining s = printbuf_remaining t := by
  unfold printbuf_remaining
  rw [hpos, hsize]

theorem make_room_simEq (s t : Printbuf) (extra : Nat) (h : simEq s t) :
    simEq (printbuf_make_room s extra) (printbuf_make_room t extra) := by
  obtain ⟨hpos, hsize, hheap, haf, hbuf⟩ := h
  have hs := make_room_size_congr s t extra hpos hsize hheap
  refine ⟨?_, hs, ?_, ?_, ?_⟩
  · rw [make_room_pos, make_room_pos, hpos]
  · rw [make_room_heap, make_room_heap, hheap]
  · rw [make_room_af, make_room_af, haf]
  · intro i hi
    by_cases hlt : i < s.size
    · rw [make_room_buf_lt s extra i hlt, make_room_buf_lt t extra i (hsize ▸ hlt)]
      exact hbuf i hlt
    · rw [make_room_buf_wipe s extra i (by omega) hi,
        make_room_buf_wipe t extra i (by omega) (by rw [← hs]; exact hi)]

theorem char_reserved_simEq (s t : Printbuf) (c : Nat) (h : simEq s t) :
    simEq (__prt_char_reserved s c) (__prt_char_reserved t c) := by
  obtain ⟨hpos, hsize, hheap, haf, hbuf⟩ := h
  refine ⟨?_, ?_, ?_, ?_, ?_⟩
  · rw [char_reserved_pos, char_reserved_pos, hpos]
  · rw [char_reserved_size, char_reserved_size, hsize]
  · rw [char_reserved_heap, char_reserved_heap, hheap]
  · rw [char_reserved_af, char_reserved_af, haf]
  · intro i hi
    rw [char_reserved_size] at hi
    rw [char_reserved_buf, char_reserved_buf, hpos, hsize]
    split
    · rfl
    · exact hbuf i hi

theorem chars_reserved_simEq (s t : Printbuf) (c n : Nat) (h : simEq s t) :
    simEq (__prt_chars_reserved s c n) (__prt_chars_reserved t c n) := by
  obtain ⟨hpos, hsize, hheap, haf, hbuf⟩ := h
  refine ⟨?_, ?_, ?_, ?_, ?_⟩
  · rw [chars_reserved_pos, chars_reserved_pos, hpos]
  · rw [chars_reserved_size, chars_reserved_size, hsize]
  · rw [chars_reserved_heap, chars_reserved_heap, hheap]
  · rw [chars_reserved_af, chars_reserved_af, haf]
  · intro i hi
    rw [chars_reserved_size] at hi
    rw [chars_reserved_buf, chars_reserved_buf, hpos, remaining_congr s t hpos hsize]
    split
    · rfl
    · exact hbuf i hi

theorem bytes_body_simEq (s t : Printbuf) (b : List Nat) (n : Nat) (h : simEq s t) :
    simEq (prt_bytes_body s b n) (prt_bytes_body t b n) := by
  obtain ⟨hpos, hsize, hheap, haf, hbuf⟩ := h
  refine ⟨?_, ?_, ?_, ?_, ?_⟩
  · rw [bytes_body_pos, bytes_body_pos, hpos]
  · rw [bytes_body_size, bytes_body_size, hsize]
  · rw [bytes_body_heap, bytes_body_heap, hheap]
  · rw [bytes_body_af, bytes_body_af, haf]
  · intro i hi
    rw [bytes_body_size] at hi
    rw [bytes_body_buf, bytes_body_buf, hpos, remaining_congr s t hpos hsize]
    split
    · rfl
    · exact hbuf i hi

theorem nul_terminate_simEq (s t : Printbuf) (h : simEq s t) :
    simEq (printbuf_nul_terminate s) (printbuf_nul_terminate t) := by
  have hmr := make_room_simEq s t 1 h
  obtain ⟨hpos, hsize, hheap, haf, hbuf⟩ := h
  obtain ⟨hmp, hms, hmh, hma, hmb⟩ := hmr
  refine ⟨?_, ?_, ?_, ?_, ?_⟩
  · rw [nul_terminate_pos, nul_terminate_pos, hpos]
  · rw [nul_terminate_size, nul_terminate_size, hms]
  · rw [nul_terminate_heap, nul_terminate_heap, hheap]
  · rw [nul_terminate_af, nul_terminate_af, haf]
  · intro i hi
    rw [nul_terminate_size] at hi
    rw [nul_terminate_buf, nul_terminate_buf, hpos, hms]
    split
    · rfl
    · exact hmb i hi

theorem stepH_simEq (s t : Printbuf) (op : HOp) (h : simEq s t) :
    simEq (stepH op s) (stepH op t) := by
  cases op with
  | char_reserved c => exact char_reserved_simEq s t c h
  | char_nonul c => exact char_reserved_simEq _ _ c (make_room_simEq s t 1 h)
  | char c =>
    exact nul_terminate_simEq _ _ (char_reserved_simEq _ _ c (make_room_simEq s t 1 h))
  | chars_reserved c n => exact chars_reserved_simEq s t c n h
  | chars c n =>
    exact nul_terminate_simEq _ _ (chars_reserved_simEq _ _ c n (make_room_simEq s t n h))
  | bytes bs n =>
    exact nul_terminate_simEq _ _ (bytes_body_simEq _ _ bs n (make_room_simEq s t n h))
  | str ss =>
    exact nul_terminate_simEq _ _ (bytes_body_simEq _ _ ss ss.length
      (make_room_simEq s t ss.length h))
  | hex_byte b =>
    exact nul_terminate_simEq _ _ (char_reserved_simEq _ _ _
      (char_reserved_simEq _ _ _ (make_room_simEq s t 2 h)))
  | hex_byte_upper b =>
    exact nul_terminate_simEq _ _ (char_reserved_simEq _ _ _
      (char_reserved_simEq _ _ _ (make_room_simEq s t 2 h)))
  | nul_terminate => exact nul_terminate_simEq s t h
  | make_room n => exact make_room_simEq s t n h
  | reset =>
    obtain ⟨hpos, hsize, hheap, haf, hbuf⟩ := h
    exact ⟨rfl, hsize, hheap, rfl, fun i hi => hbuf i hi⟩
  | atomic_inc => exact h
  | atomic_dec => exact h

theorem runH_simEq (ops : List HOp) (s t : Printbuf) (h : simEq s t) :
    simEq (runH s ops) (runH t ops) := by
  induction ops generalizing s t with
  | nil => exact h
  | cons op rest ih => exact ih _ _ (stepH_simEq s t op h)

theorem simEq_obsEqv (s t : Printbuf) (h : simEq s t) : obsEqv s t := by
  obtain ⟨hpos, hsize, hheap, haf, hbuf⟩ := h
  refine ⟨hpos, ?_, ?_, ?_, ?_, ?_⟩
  · unfold printbuf_written
    rw [hpos, hsize]
  · unfold printbuf_overflowed
    rw [hpos, hsize]
  · exact remaining_congr s t hpos hsize
  · unfold printbuf_remaining_size
    rw [hpos, hsize]
  · intro i hi
    apply hbuf
    unfold printbuf_written at hi
    rcases Nat.eq_zero_or_pos s.size with h0 | h0
    · rw [if_neg (by omega)] at hi
      omega
    · rw [if_pos (by omega)] at hi
      omega

theorem reset_extern_simEq (p : Printbuf) (hh : p.heap_allocated = false) :
    simEq (printbuf_reset p) (PRINTBUF_EXTERN p.buf p.size) :=
  ⟨rfl, rfl, hh, rfl, fun _ _ => rfl⟩

theorem reset_fresh_simEq (p : Printbuf) (hh : p.heap_allocated = true) (hs : p.size = 0) :
    simEq (printbuf_reset p) PRINTBUF :=
  ⟨rfl, hs, hh, rfl, fun i hi => absurd hi (by simp [printbuf_reset, hs])⟩

/-- C7: after `printbuf_reset`, any sequence of header operations behaves
identically — same stored content, same cursor, same accessor results — to the
same sequence run on a freshly constructed buffer of the same capacity
(`PRINTBUF_EXTERN` with the same storage and size for an external buffer, or a
fresh `PRINTBUF` for a zero-capacity heap buffer). -/
theorem C7_reset_reuse (p : Printbuf) (ops : List HOp) :
    (p.heap_allocated = false →
      obsEqv (runH (printbuf_reset p) ops) (runH (PRINTBUF_EXTERN p.buf p.size) ops)) ∧
    (p.heap_allocated = true → p.size = 0 →
      obsEqv (runH (printbuf_reset p) ops) (runH PRINTBUF ops)) := by
  constructor
  · intro hh
    exact simEq_obsEqv _ _ (runH_simEq ops _ _ (reset_extern_simEq p hh))
  · intro hh hs
    exact simEq_obsEqv _ _ (runH_simEq ops _ _ (reset_fresh_simEq p hh hs))

theorem C7_reset_reuse_witness :
    wDirty.heap_allocated = false ∧
      obsEqv (runH (printbuf_reset wDirty) [HOp.char 97, HOp.str [104, 105]])
        (runH (PRINTBUF_EXTERN wDirty.buf wDirty.size) [HOp.char 97, HOp.str [104, 105]]) :=
  ⟨rfl, (C7_reset_reuse wDirty [HOp.char 97, HOp.str [104, 105]]).1 rfl⟩

/-! ### Claim C1: snprintf truncation law -/

theorem nul_terminate_ext_size (w : Printbuf) (hh : w.heap_allocated = false) :
    (printbuf_nul_terminate w).size = w.size := by
  rw [nul_terminate_size, make_room_not_heap w 1 hh]

theorem nul_terminate_ext_buf (w : Printbuf) (hh : w.heap_allocated = false) (i : Nat) :
    (printbuf_nul_terminate w).buf i =
      if w.size ≠ 0 ∧ i = min w.pos (w.size - 1) then some 0 else w.buf i := by
  rw [nul_terminate_buf, make_room_not_heap w 1 hh]

theorem pub_char_step (out : Printbuf) (c : Nat) (hh : out.heap_allocated = false) :
    PubStep out (prt_char out c) [c] := by
  have hx : __prt_char out c = __prt_char_reserved out c := by
    unfold __prt_char
    rw [make_room_not_heap out 1 hh]
  have hcrh : (__prt_char_reserved out c).heap_allocated = false := by
    rw [char_reserved_heap, hh]
  unfold PubStep prt_char
  rw [hx]
  refine ⟨?_, ?_, ?_, ?_, ?_⟩
  · rw [nul_terminate_pos, char_reserved_pos]
    simp
  · rw [nul_terminate_ext_size _ hcrh, char_reserved_size]
  · rw [nul_terminate_heap, char_reserved_heap]
  · intro i hi1 hi2
    rw [nul_terminate_ext_buf _ hcrh, char_reserved_pos, char_reserved_size,
      if_neg (by omega), char_reserved_buf, if_neg (by omega)]
  · intro i hi1 hi2
    rw [nul_terminate_pos, char_reserved_pos] at hi2
    have hieq : i = out.pos := by omega
    have hlt : out.pos + 1 < out.size := by omega
    rw [nul_terminate_ext_buf _ hcrh, char_reserved_pos, char_reserved_size,
      if_neg (by omega), char_reserved_buf, if_pos ⟨hieq, hlt⟩, hieq]
    simp

theorem pub_chars_step (out : Printbuf) (c n : Nat) (hh : out.heap_allocated = false) :
    PubStep out (prt_chars out c n) (List.replicate n c) := by
  have hr := remaining_eq out
  have hcrh : (__prt_chars_reserved out c n).heap_allocated = false := by
    rw [chars_reserved_heap, hh]
  unfold PubStep prt_chars
  rw [make_room_not_heap out n hh]
  refine ⟨?_, ?_, ?_, ?_, ?_⟩
  · rw [nul_terminate_pos, chars_reserved_pos, List.length_replicate]
  · rw [nul_terminate_ext_size _ hcrh, chars_reserved_size]
  · rw [nul_terminate_heap, chars_reserved_heap]
  · intro i hi1 hi2
    rw [nul_terminate_ext_buf _ hcrh, chars_reserved_pos, chars_reserved_size,
      if_neg (by omega), chars_reserved_buf, if_neg (by omega)]
  · intro i hi1 hi2
    rw [nul_terminate_pos, chars_reserved_pos] at hi2
    rw [nul_terminate_ext_buf _ hcrh, chars_reserved_pos, chars_reserved_size,
      if_neg (by omega), chars_reserved_buf, if_pos (by omega)]
    rw [replicate_getD _ _ _ (by omega)]

theorem pub_bytes_step (out : Printbuf) (bs : List Nat) (n : Nat)
    (hh : out.heap_allocated = false) (hwf : n ≤ bs.length) :
    PubStep out (prt_bytes out bs n) (bs.take n) := by
  have hr := remaining_eq out
  have hbh : (prt_bytes_body out bs n).heap_allocated = false := by
    rw [bytes_body_heap, hh]
  have hcan : min n (printbuf_remaining out) ≤ bs.length :=
    le_trans (Nat.min_le_left _ _) hwf
  unfold PubStep prt_bytes
  rw [make_room_not_heap out n hh]
  refine ⟨?_, ?_, ?_, ?_, ?_⟩
  · rw [nul_terminate_pos, bytes_body_pos, List.length_take, Nat.min_eq_left hwf]
  · rw [nul_terminate_ext_size _ hbh, bytes_body_size]
  · rw [nul_terminate_heap, bytes_body_heap]
  · intro i hi1 hi2
    rw [nul_terminate_ext_buf _ hbh, bytes_body_pos, bytes_body_size,
      if_neg (by omega), bytes_body_buf_wf _ _ _ _ hcan, if_neg (by omega)]
  · intro i hi1 hi2
    rw [nul_terminate_pos, bytes_body_pos] at hi2
    rw [nul_terminate_ext_buf _ hbh, bytes_body_pos, bytes_body_size,
      if_neg (by omega), bytes_body_buf_wf _ _ _ _ hcan, if_pos (by omega)]
    rw [take_getD _ _ _ (by omega)]

theorem pub_str_step (out : Printbuf) (s : List Nat) (hh : out.heap_allocated = false) :
    PubStep out (prt_str out s) s := by
  have h := pub_bytes_step out s s.length hh (le_refl _)
  rw [List.take_length] at h
  exact h

theorem pub_hex_step (out : Printbuf) (b : Nat) (hh : out.heap_allocated = false) :
    PubStep out (prt_hex_byte out b) [hex_asc_hi b, hex_asc_lo b] := by
  have h2h : (__prt_char_reserved (__prt_char_reserved out (hex_asc_hi b))
      (hex_asc_lo b)).heap_allocated = false := by
    rw [char_reserved_heap, char_reserved_heap, hh]
  unfold PubStep prt_hex_byte
  rw [make_room_not_heap out 2 hh]
  refine ⟨?_, ?_, ?_, ?_, ?_⟩
  · simp only [nul_terminate_pos, char_reserved_pos, List.length_cons, List.length_nil]
  · rw [nul_terminate_ext_size _ h2h, char_reserved_size, char_reserved_size]
  · rw [nul_terminate_heap, char_reserved_heap, char_reserved_heap]
  · intro i hi1 hi2
    rw [nul_terminate_ext_buf _ h2h]
    simp only [char_reserved_pos, char_reserved_size]
    rw [if_neg (by omega), char_reserved_buf]
    simp only [char_reserved_pos, char_reserved_size]
    rw [if_neg (by omega), char_reserved_buf, if_neg (by omega)]
  · intro i hi1 hi2
    simp only [nul_terminate_pos, char_reserved_pos] at hi2
    rw [nul_terminate_ext_buf _ h2h]
    simp only [char_reserved_pos, char_reserved_size]
    rw [if_neg (by omega), char_reserved_buf]
    simp only [char_reserved_pos, char_reserved_size]
    rcases Nat.lt_or_ge i (out.pos + 1) with hc | hc
    · have hieq : i = out.pos := by omega
      rw [if_neg (by omega), char_reserved_buf, if_pos (by omega), hieq]
      simp
    · have hieq : i = out.pos + 1 := by omega
      rw [if_pos (by omega), hieq]
      simp [List.getD]

theorem pubPrim_step (out : Printbuf) (op : HOp) (hh : out.heap_allocated = false)
    (hop : isPubPrim op = true) : PubStep out (stepH op out) (reqBytes op) := by
  cases op with
  | char c => exact pub_char_step out c hh
  | chars c n => exact pub_chars_step out c n hh
  | bytes bs n => exact pub_bytes_step out bs n hh (by simpa [isPubPrim] using hop)
  | str s => exact pub_str_step out s hh
  | hex_byte b => exact pub_hex_step out b hh
  | char_reserved c => simp [isPubPrim] at hop
  | char_nonul c => simp [isPubPrim] at hop
  | chars_reserved c n => simp [isPubPrim] at hop
  | hex_byte_upper b => simp [isPubPrim] at hop
  | nul_terminate => simp [isPubPrim] at hop
  | make_room n => simp [isPubPrim] at hop
  | reset => simp [isPubPrim] at hop
  | atomic_inc => simp [isPubPrim] at hop
  | atomic_dec => simp [isPubPrim] at hop

theorem C1_run_inv (cap : Nat) (hcap : 0 < cap) :
    ∀ ops : List HOp, (∀ op ∈ ops, isPubPrim op = true) →
      ∀ s : Printbuf, ∀ done : List Nat,
        s.size = cap → s.heap_allocated = false → s.pos = done.length →
        (∀ i, i < min done.length (cap - 1) → s.buf i = some (done.getD i 0)) →
        (runH s ops).size = cap ∧ (runH s ops).heap_allocated = false ∧
          (runH s ops).pos = done.length + (reqConcat ops).length ∧
          (∀ i, i < min (done.length + (reqConcat ops).length) (cap - 1) →
            (runH s ops).buf i = some ((done ++ reqConcat ops).getD i 0)) := by
  intro ops
  induction ops with
  | nil =>
    intro _ s done hs hh hp hc
    refine ⟨hs, hh, ?_, ?_⟩
    · simp only [runH, List.foldl_nil, reqConcat, List.foldr_nil, List.length_nil,
        Nat.add_zero]
      exact hp
    · intro i hi
      simp only [reqConcat, List.foldr_nil, List.length_nil, Nat.add_zero] at hi
      simp only [runH, List.foldl_nil, reqConcat, List.foldr_nil, List.append_nil]
      exact hc i hi
  | cons op rest ih =>
    intro hops s done hs hh hp hc
    obtain ⟨hsp, hss, hsh, hpre, hnew⟩ :=
      pubPrim_step s op hh (hops op (List.mem_cons_self op rest))
    have hcontent : ∀ i, i < min (done ++ reqBytes op).length (cap - 1) →
        (stepH op s).buf i = some ((done ++ reqBytes op).getD i 0) := by
      intro i hi
      rw [List.length_append] at hi
      rcases Nat.lt_or_ge i done.length with hlt | hge
      · rw [hpre i (by omega) (by omega), hc i (by omega)]
        congr 1
        exact (List.getD_append _ _ _ _ (by omega)).symm
      · rw [hnew i (by omega) (by rw [hsp]; omega)]
        congr 1
        rw [List.getD_append_right _ _ _ _ hge, hp]
    have hrec := ih (fun o ho => hops o (List.mem_cons_of_mem op ho)) (stepH op s)
      (done ++ reqBytes op) (by rw [hss, hs]) (by rw [hsh, hh])
      (by rw [hsp, hp, List.length_append]) hcontent
    obtain ⟨h1, h2, h3, h4⟩ := hrec
    have hrunH : runH s (op :: rest) = runH (stepH op s) rest := rfl
    refine ⟨by rw [hrunH]; exact h1, by rw [hrunH]; exact h2, ?_, ?_⟩
    · rw [hrunH, h3]
      simp only [reqConcat, List.foldr_cons, List.length_append]
      omega
    · intro i hi
      rw [hrunH]
      have hi' : i < min ((done ++ reqBytes op).length + (reqConcat rest).length)
          (cap - 1) := by
        simp only [reqConcat, List.foldr_cons, List.length_append] at hi ⊢
        omega
      have hv := h4 i hi'
      have hl : (done ++ reqBytes op) ++ reqConcat rest = done ++ reqConcat (op :: rest) := by
        rw [List.append_assoc]
        rfl
      rw [hl] at hv
      exact hv

/-- C1: on an externally-owned printbuf of capacity `cap > 0`, any sequence of
public write primitives with total requested length `L` leaves `pos = L`,
`printbuf_written = min(L, cap - 1)`, and the stored bytes
`data[0 .. min(L, cap - 1))` equal to the first `min(L, cap - 1)` bytes of the
requested logical sequence. -/
theorem C1_snprintf_law (sto : Nat → Option Nat) (cap : Nat) (hcap : 0 < cap)
    (ops : List HOp) (hops : ∀ op ∈ ops, isPubPrim op = true) :
    (runH (PRINTBUF_EXTERN sto cap) ops).pos = (reqConcat ops).length ∧
      printbuf_written (runH (PRINTBUF_EXTERN sto cap) ops) =
        min (reqConcat ops).length (cap - 1) ∧
      ∀ i, i < min (reqConcat ops).length (cap - 1) →
        (runH (PRINTBUF_EXTERN sto cap) ops).buf i =
          some ((reqConcat ops).getD i 0) := by
  obtain ⟨hs, hh, hp, hc⟩ := C1_run_inv cap hcap ops hops (PRINTBUF_EXTERN sto cap) []
    rfl rfl rfl (by intro i hi; rw [List.length_nil] at hi; omega)
  refine ⟨by simpa using hp, ?_, ?_⟩
  · unfold printbuf_written
    rw [if_pos (by rw [hs]; omega), hs, hp]
    simp
  · intro i hi
    have hv := hc i (by simpa using hi)
    simpa using hv

theorem C1_snprintf_law_witness :
    ((0 : Nat) < 4 ∧
        (∀ op ∈ ([HOp.char 97, HOp.str [98, 99, 100, 101]] : List HOp),
          isPubPrim op = true)) ∧
      ((runH (PRINTBUF_EXTERN (fun _ => some 7) 4)
            [HOp.char 97, HOp.str [98, 99, 100, 101]]).pos =
          (reqConcat [HOp.char 97, HOp.str [98, 99, 100, 101]]).length ∧
        printbuf_written (runH (PRINTBUF_EXTERN (fun _ => some 7) 4)
            [HOp.char 97, HOp.str [98, 99, 100, 101]]) =
          min (reqConcat [HOp.char 97, HOp.str [98, 99, 100, 101]]).length (4 - 1) ∧
        ∀ i, i < min (reqConcat [HOp.char 97, HOp.str [98, 99, 100, 101]]).length (4 - 1) →
          (runH (PRINTBUF_EXTERN (fun _ => some 7) 4)
              [HOp.char 97, HOp.str [98, 99, 100, 101]]).buf i =
            some ((reqConcat [HOp.char 97, HOp.str [98, 99, 100, 101]]).getD i 0)) :=
  ⟨⟨by decide, by decide⟩,
   C1_snprintf_law (fun _ => some 7) 4 (by decide)
     [HOp.char 97, HOp.str [98, 99, 100, 101]] (by decide)⟩

/-! ### Claim C9: human-readable units formatting -/

/-- C9: with human-readable units enabled, 1536 in binary mode renders as
"1.5K", 1500000 in decimal mode renders as "1.5M", 0 renders as "0" in both
modes, and -2048 (signed, binary) renders as "-2.0K"; the fractional digit is
truncated, not rounded (2047 in binary mode renders as "1.9K", not "2.0K"). -/
theorem C9_human_readable_units :
    printbuf_contents (prt_human_readable_u64
        { PRINTBUF_EXTERN (fun _ => some 0) 32 with
          si_units := printbuf_si.PRINTBUF_UNITS_2, human_readable_units := true } 1536) =
      [some 49, some 46, some 53, some 75] ∧
    printbuf_contents (prt_human_readable_u64
        { PRINTBUF_EXTERN (fun _ => some 0) 32 with
          si_units := printbuf_si.PRINTBUF_UNITS_10, human_readable_units := true } 1500000) =
      [some 49, some 46, some 53, some 77] ∧
    printbuf_contents (prt_human_readable_u64
        { PRINTBUF_EXTERN (fun _ => some 0) 32 with
          si_units := printbuf_si.PRINTBUF_UNITS_2, human_readable_units := true } 0) =
      [some 48] ∧
    printbuf_contents (prt_human_readable_u64
        { PRINTBUF_EXTERN (fun _ => some 0) 32 with
          si_units := printbuf_si.PRINTBUF_UNITS_10, human_readable_units := true } 0) =
      [some 48] ∧
    printbuf_contents (prt_human_readable_s64
        { PRINTBUF_EXTERN (fun _ => some 0) 32 with
          si_units := printbuf_si.PRINTBUF_UNITS_2, human_readable_units := true } (-2048)) =
      [some 45, some 50, some 46, some 48, some 75] ∧
    printbuf_contents (prt_human_readable_u64
        { PRINTBUF_EXTERN (fun _ => some 0) 32 with
          si_units := printbuf_si.PRINTBUF_UNITS_2, human_readable_units := true } 2047) =
      [some 49, some 46, some 57, some 75] := by
  decide
